import Mathlib

/-!
Shallow embedding of the charter-party PDF aggregation core:
the Part II clause extractors and Part I field extractor
(`src/pdf_extractor.py`), the amendment detector
(`src/amendment_parser.py`), and the field validator
(`src/field_mapper.py`).

Text is modelled as `List Char`.  Python `str.strip`, `str.split`,
`re.match` patterns and dict insertion-order semantics are translated
directly from the source.  The clause trees handed to the amendment
detector are dynamic Python dictionaries; the embedding keeps just
enough of that dynamism to reach the exception paths the code guards
against: a non-dict clause (membership test raises), an unhashable
`text` value (dict-key insertion raises), and an unhashable truthy
`line` value (set insertion raises).
-/

set_option maxRecDepth 4096

deriving instance DecidableEq for Except

abbrev Str := List Char

/-- Python whitespace class for `str.strip` / `\s` (ASCII fragment). -/
def pySpace (c : Char) : Bool :=
  c = ' ' || c = '\t' || c = '\n' || c = '\r' || c = '\x0b' || c = '\x0c'

/-- Python `str.strip()`: drop whitespace from both ends. -/
def pyStrip (s : Str) : Str :=
  ((s.dropWhile pySpace).reverse.dropWhile pySpace).reverse

/-- Value of a digit character. -/
def digitVal (c : Char) : Nat := c.toNat - '0'.toNat

/-- Python `int()` on a run of decimal digits. -/
def digitsToNat (ds : Str) : Nat :=
  ds.foldl (fun acc c => 10 * acc + digitVal c) 0

/-- Is `p` a prefix of `s` (Python substring test helper). -/
def strIsPre : Str → Str → Bool
  | [], _ => true
  | _ :: _, [] => false
  | c :: cs, d :: ds => if c = d then strIsPre cs ds else false

/-- Python `pat in s` substring containment (for non-empty `pat`). -/
def containsSeq (pat : Str) : Str → Bool
  | [] => strIsPre pat []
  | c :: rest => strIsPre pat (c :: rest) || containsSeq pat rest

/-- The literal section marker `"Part II"`. -/
def partIIMarker : Str := "Part II".data

/-- Prepend a char to the first segment of a split result. -/
def consHead (c : Char) : List Str → List Str
  | [] => [[c]]
  | s :: ss => (c :: s) :: ss

/-- Python `full_text.split("Part II")`: left-to-right, non-overlapping
splits on the marker.  Fuelled so that it evaluates in the kernel; the
fuel is always at least the remaining length plus one. -/
def splitGo : Nat → Str → List Str
  | 0, _ => [[]]
  | fuel + 1, t =>
    if strIsPre partIIMarker t then
      [] :: splitGo fuel (t.drop partIIMarker.length)
    else
      match t with
      | [] => [[]]
      | c :: rest => consHead c (splitGo fuel rest)

/-- Python `full_text.split("Part II")` at full fuel. -/
def splitPartII (t : Str) : List Str := splitGo (t.length + 1) t

/-- Region handed to the clause scanners:
`full_text.split("Part II")[1]` when the marker occurs, the whole text
otherwise (`pdf_extractor.py` lines 132-135 and 183-186). -/
def partIIText (t : Str) : Str :=
  if containsSeq partIIMarker t then (splitPartII t).getD 1 [] else t

/-- Python `text.split('\n')`. -/
def splitLinesNL : Str → List Str
  | [] => [[]]
  | c :: rest => if c = '\n' then [] :: splitLinesNL rest else consHead c (splitLinesNL rest)

/-! ### Regex matchers

Each `re.match` pattern of the source is translated to a deterministic
scanner; backtracking only matters for `\s+(.+)$` on an all-whitespace
tail, which is handled explicitly. -/

/-- `re.match(r'^Clause\s*(\d+)\.\s*(.+)$', s)`: returns the captured
clause number when the pattern matches (group 2 is never used by the
source). -/
def clauseHeaderNum (s : Str) : Option Nat :=
  if strIsPre "Clause".data s then
    let r1 := s.drop 6
    let r2 := r1.dropWhile pySpace
    let ds := r2.takeWhile Char.isDigit
    let r3 := r2.dropWhile Char.isDigit
    if ds.isEmpty then none
    else
      match r3 with
      | '.' :: rest => if rest.isEmpty then none else some (digitsToNat ds)
      | _ => none
  else none

/-- Shared tail for `\s+(.+)` patterns anchored at `$`: at least one
whitespace char, then the captured rest; when the tail is all
whitespace, backtracking leaves the final whitespace char as the
capture (needs length at least two). -/
def wsPlusRest (r : Str) : Option Str :=
  let w := r.takeWhile pySpace
  let r2 := r.dropWhile pySpace
  if w.isEmpty then none
  else if r2.isEmpty then
    match w.reverse with
    | a :: _ :: _ => some [a]
    | _ => none
  else some r2

/-- `re.match(r'^(\d+)\s+(.+)$', s)` (template-mode numbered line):
returns the line number and the raw group-2 capture. -/
def numberedLine (s : Str) : Option (Nat × Str) :=
  let ds := s.takeWhile Char.isDigit
  let r := s.dropWhile Char.isDigit
  if ds.isEmpty then none
  else (wsPlusRest r).map fun g2 => (digitsToNat ds, g2)

/-- `re.match(r'^\s*(\d+)\s+(.+)$', s)` (filled-mode numbered line). -/
def numberedLineWs (s : Str) : Option (Nat × Str) :=
  numberedLine (s.dropWhile pySpace)

/-- `re.match(r'^(\d+)\.\s+(.+?)$', s)` (Part I field header):
returns the field number and `group(2)`. -/
def fieldHeader (s : Str) : Option (Nat × Str) :=
  let ds := s.takeWhile Char.isDigit
  let r := s.dropWhile Char.isDigit
  if ds.isEmpty then none
  else
    match r with
    | '.' :: rest => (wsPlusRest rest).map fun g2 => (digitsToNat ds, g2)
    | _ => none

/-- `re.match(r'^\d+\.\s+', s)` (Part I value-block delimiter). -/
def fieldDelim (s : Str) : Bool :=
  let ds := s.takeWhile Char.isDigit
  let r := s.dropWhile Char.isDigit
  if ds.isEmpty then false
  else
    match r with
    | '.' :: d :: _ => pySpace d
    | _ => false

/-! ### Dynamic data model for clause trees -/

/-- Value stored under a content item's `"line"` key: `none` for an
absent key or `None`, `num n` for an int, `badList` for a non-empty
list (truthy but unhashable). -/
inductive LineVal where
  | none
  | num (n : Nat)
  | badList
  deriving DecidableEq, Repr

/-- Truthiness of a `"line"` value (`0` and `None` are falsy). -/
def LineVal.truthy : LineVal → Bool
  | .none => false
  | .num n => decide (n ≠ 0)
  | .badList => true

/-- Value stored under a content item's `"text"` key: a string, or a
list (unhashable when used as a dict key). -/
inductive TextVal where
  | str (s : Str)
  | badList
  deriving DecidableEq, Repr

/-- A content-line dictionary: every key may be absent. -/
structure ContentItem where
  line : LineVal
  text : Option TextVal
  original : Option Bool
  deriving DecidableEq, Repr

/-- A clause dictionary: `"line"`, `"title"`, `"content"` keys, each
possibly absent. -/
structure Clause where
  line : Option Nat
  title : Option Str
  content : Option (List ContentItem)
  deriving DecidableEq, Repr

/-- An element of the clause list handed to the detector: a clause
dict, or a non-dict value on which `"content" in clause` raises. -/
inductive PyClause where
  | dict (c : Clause)
  | invalid
  deriving DecidableEq, Repr

/-! ### Part II clause extraction (`pdf_extractor.py` 124-220) -/

/-- Append a content item to the current clause's content list. -/
def pushContent (c : Clause) (it : ContentItem) : Clause :=
  { c with content := some ((c.content.getD []) ++ [it]) }

/-- Emit the current clause, if any. -/
def emitCur : Option Clause → List Clause
  | some c => [c]
  | Option.none => []

/-- Template-mode line loop (`_extract_part_ii_template` 138-172):
each line is stripped first; headers and numbered lines are matched on
the stripped line. -/
def scanTAux : List Str → Option Clause → List Clause
  | [], cur => emitCur cur
  | l :: rest, cur =>
    let s := pyStrip l
    if s.isEmpty then scanTAux rest cur
    else
      match clauseHeaderNum s with
      | some n => emitCur cur ++ scanTAux rest (some ⟨some n, some s, some []⟩)
      | Option.none =>
        match numberedLine s, cur with
        | some (k, g2), some c =>
            scanTAux rest (some (pushContent c ⟨.num k, some (.str (pyStrip g2)), Option.none⟩))
        | some _, Option.none => scanTAux rest Option.none
        | Option.none, some c =>
            scanTAux rest (some (pushContent c ⟨.none, some (.str s), Option.none⟩))
        | Option.none, Option.none => scanTAux rest Option.none

/-- Filled-mode line loop (`_extract_part_ii_filled` 189-220): headers
and numbered lines are matched on the raw, unstripped line. -/
def scanFAux : List Str → Option Clause → List Clause
  | [], cur => emitCur cur
  | l :: rest, cur =>
    match clauseHeaderNum l with
    | some n => emitCur cur ++ scanFAux rest (some ⟨some n, some (pyStrip l), some []⟩)
    | Option.none =>
      match numberedLineWs l, cur with
      | some (k, g2), some c =>
          scanFAux rest (some (pushContent c ⟨.num k, some (.str (pyStrip g2)), Option.none⟩))
      | some _, Option.none => scanFAux rest Option.none
      | Option.none, some c =>
          if (pyStrip l).isEmpty then scanFAux rest (some c)
          else scanFAux rest (some (pushContent c ⟨.none, some (.str (pyStrip l)), Option.none⟩))
      | Option.none, Option.none => scanFAux rest Option.none

/-- Template-mode clause scan over a line sequence. -/
def scanClausesTemplate (lines : List Str) : List Clause := scanTAux lines Option.none

/-- Filled-mode clause scan over a line sequence. -/
def scanClausesFilled (lines : List Str) : List Clause := scanFAux lines Option.none

/-- `_extract_part_ii_template` on the concatenated document text. -/
def extract_part_ii_template (t : Str) : List Clause :=
  scanClausesTemplate (splitLinesNL (partIIText t))

/-- `_extract_part_ii_filled` on the concatenated document text. -/
def extract_part_ii_filled (t : Str) : List Clause :=
  scanClausesFilled (splitLinesNL (partIIText t))

/-! ### Part I field extraction, filled mode
(`_extract_part_i_filled`, `pdf_extractor.py` 82-122) -/

/-- A Part I field record `{label, value, line_index}`. -/
structure FieldRec where
  label : Str
  value : Str
  line_index : Nat
  deriving DecidableEq, Repr

/-- Python dict insertion: a later assignment to an existing key
replaces the value but keeps the key's original position; a fresh key
is appended. -/
def dictInsert {α β : Type} [DecidableEq α] (m : List (α × β)) (k : α) (v : β) :
    List (α × β) :=
  if m.any (fun p => decide (p.1 = k)) then
    m.map (fun p => if p.1 = k then (k, v) else p)
  else m ++ [(k, v)]

/-- Keys of an association list, in insertion order. -/
def dictKeys {α β : Type} (m : List (α × β)) : List α := m.map Prod.fst

abbrev FieldMap := List (Nat × FieldRec)

/-- `" ".join(value_lines)`. -/
def joinSpace : List Str → Str
  | [] => []
  | [s] => s
  | s :: rest => s ++ ' ' :: joinSpace rest

/-- Inner value-accumulation loop of `_extract_part_i_filled`
(lines 104-111): starting at index `i`, consume stripped non-blank
lines until a blank line, a field-header-shaped line, or a line
containing `"Part II"`; returns the value lines and the final cursor
(the source decrements the cursor before breaking on a delimiter).
Fuelled so that it evaluates in the kernel; each call supplies fuel
larger than the number of remaining lines. -/
def consumeValues (lines : List Str) : Nat → Nat → List Str × Nat
  | 0, i => ([], i)
  | fuel + 1, i =>
    if h : i < lines.length then
      let s := pyStrip (lines.get ⟨i, h⟩)
      if s.isEmpty then ([], i)
      else if fieldDelim s || containsSeq partIIMarker s then ([], i - 1)
      else
        let p := consumeValues lines fuel (i + 1)
        (s :: p.1, p.2)
    else ([], i)

/-- Outer loop of `_extract_part_i_filled` (lines 90-120), fuelled so
that it evaluates in the kernel; every call site supplies fuel larger
than the number of remaining lines, and each iteration advances the
cursor by at least one. -/
def partIAux (lines : List Str) : Nat → Nat → FieldMap → FieldMap
  | 0, _, acc => acc
  | fuel + 1, i, acc =>
    if h : i < lines.length then
      let line := pyStrip (lines.get ⟨i, h⟩)
      if containsSeq partIIMarker line then acc
      else
        match fieldHeader line with
        | some (n, g2) =>
          let p := consumeValues lines (lines.length + 1) (i + 1)
          let acc' :=
            if 1 ≤ n ∧ n ≤ 19 then
              dictInsert acc n ⟨pyStrip g2, pyStrip (joinSpace p.1), p.2⟩
            else acc
          partIAux lines fuel (p.2 + 1) acc'
        | Option.none => partIAux lines fuel (i + 1) acc
    else acc

/-- `_extract_part_i_filled` on a line sequence. -/
def extract_part_i_filled (lines : List Str) : FieldMap :=
  partIAux lines (lines.length + 1) 0 []

/-! ### Amendment detector (`amendment_parser.py`) -/

/-- Flattened line dict produced by `_extract_clause_lines`
(lines 51-56): all four keys are always present. -/
structure FlatLine where
  line : LineVal
  text : TextVal
  original : Bool
  clause_title : Str
  deriving DecidableEq, Repr

/-- Deleted/added record (`_analyze_diff` lines 74-78 and 83-87). -/
structure AmendRecord where
  text : TextVal
  line : LineVal
  clause : Str
  deriving DecidableEq, Repr

/-- New-line record (`_find_new_lines` lines 107-111); the position
field is always `"after_clause"`. -/
structure NewRecord where
  text : TextVal
  clause : Str
  pos : Str
  deriving DecidableEq, Repr

/-- Result dict of `_analyze_diff`: keys `deleted`, `added`,
`modified` (no `new` key). -/
structure DiffResult where
  deleted : List AmendRecord
  added : List AmendRecord
  modified : List AmendRecord
  deriving DecidableEq, Repr

/-- Result dict of `detect_amendments`; `new = Option.none` models a
dict carrying no `"new"` key. -/
structure AmendResult where
  deleted : List AmendRecord
  added : List AmendRecord
  new : Option (List NewRecord)
  modified : List AmendRecord
  deriving DecidableEq, Repr

/-- The initial empty skeleton (`detect_amendments` lines 23-28). -/
def emptySkeleton : AmendResult := ⟨[], [], some [], []⟩

/-- `_extract_clause_lines` (lines 45-57): flatten clause trees,
defaulting `text` to `""`, `original` to `True`, `clause_title` to
`""`; raises when a clause is not a dict. -/
def extract_clause_lines : List PyClause → Except Unit (List FlatLine)
  | [] => .ok []
  | .invalid :: _ => .error ()
  | .dict c :: rest =>
    let here : List FlatLine :=
      match c.content with
      | Option.none => []
      | some items =>
        items.map fun it =>
          ⟨it.line, it.text.getD (.str []), it.original.getD true, (c.title.getD [])⟩
    (extract_clause_lines rest).map (fun more => here ++ more)

/-- Build a Python dict keyed by each flat line's `text`
(`_analyze_diff` lines 68-69); raises on an unhashable text value. -/
def buildTextDict (acc : List (Str × FlatLine)) :
    List FlatLine → Except Unit (List (Str × FlatLine))
  | [] => .ok acc
  | it :: rest =>
    match it.text with
    | .badList => .error ()
    | .str s => buildTextDict (dictInsert acc s it) rest

/-- `_analyze_diff` (lines 59-89). -/
def analyze_diff (tl rl : List FlatLine) : Except Unit DiffResult :=
  match buildTextDict [] tl with
  | .error e => .error e
  | .ok td =>
    match buildTextDict [] rl with
    | .error e => .error e
    | .ok rd =>
      let deleted := td.filterMap fun p =>
        if rd.any (fun q => decide (q.1 = p.1)) then Option.none
        else some (⟨p.2.text, p.2.line, p.2.clause_title⟩ : AmendRecord)
      let added := rd.filterMap fun p =>
        if td.any (fun q => decide (q.1 = p.1)) then Option.none
        else if p.2.original then Option.none
        else some (⟨.str p.1, p.2.line, p.2.clause_title⟩ : AmendRecord)
      .ok ⟨deleted, added, []⟩

/-- Template pass of `_find_new_lines` (lines 96-101): collect truthy
line numbers into a set; adding an unhashable value raises, and a
non-dict clause raises at the membership test.  The set itself is
never read afterwards, so only the raised/ok outcome matters. -/
def findNewTemplatePass : List PyClause → Except Unit Unit
  | [] => .ok ()
  | .invalid :: _ => .error ()
  | .dict c :: rest =>
    match c.content with
    | some items =>
      if items.any (fun it => it.line.truthy && decide (it.line = .badList)) then .error ()
      else findNewTemplatePass rest
    | Option.none => findNewTemplatePass rest

/-- Recap pass of `_find_new_lines` (lines 103-111): emit a record for
every content item whose `original` value is falsy (absent defaults to
`False` here) and whose `line` value is falsy. -/
def findNewRecapPass : List PyClause → Except Unit (List NewRecord)
  | [] => .ok []
  | .invalid :: _ => .error ()
  | .dict c :: rest =>
    let here : List NewRecord :=
      (c.content.getD []).filterMap fun it =>
        if !(it.original.getD false) && !it.line.truthy then
          some ⟨it.text.getD (.str []), c.title.getD [], "after_clause".data⟩
        else Option.none
    (findNewRecapPass rest).map (fun more => here ++ more)

/-- `_find_new_lines` (lines 91-113). -/
def find_new_lines (t r : List PyClause) : Except Unit (List NewRecord) :=
  match findNewTemplatePass t with
  | .error e => .error e
  | .ok _ => findNewRecapPass r

/-- The body of `detect_amendments` up to and including the diff
analysis: flatten both trees, then classify (lines 31-34). -/
def classifyStage (t r : List PyClause) : Except Unit DiffResult :=
  match extract_clause_lines t with
  | .error e => .error e
  | .ok tl =>
    match extract_clause_lines r with
    | .error e => .error e
    | .ok rl => analyze_diff tl rl

/-- `detect_amendments` (lines 15-43).  The local variable
`amendments` starts as the empty skeleton; the diff analysis rebinds
it, and only then is the `"new"` key assigned.  An exception before
the rebinding yields the skeleton; an exception inside
`_find_new_lines` yields the rebound diff dict, which carries no
`"new"` key. -/
def detect_amendments (t r : List PyClause) : AmendResult :=
  match classifyStage t r with
  | .error _ => emptySkeleton
  | .ok d =>
    match find_new_lines t r with
    | .error _ => ⟨d.deleted, d.added, Option.none, d.modified⟩
    | .ok nw => ⟨d.deleted, d.added, some nw, d.modified⟩

/-! ### Field validation (`field_mapper.py`) -/

/-- Entry of the `fields` dict passed to `validate_fields`: only the
`"value"` key is consulted, and it may be absent. -/
structure VEntry where
  value : Option Str
  deriving DecidableEq, Repr

abbrev VFields := List (Nat × VEntry)

/-- Python `fields[k]` lookup. -/
def vLookup (m : VFields) (k : Nat) : Option VEntry :=
  (m.find? (fun p => decide (p.1 = k))).map Prod.snd

/-- `FIELD_LABELS` (`field_mapper.py` 11-31). -/
def fieldLabel (k : Nat) : Str :=
  (match k with
  | 1 => "Charter Party Form"
  | 2 => "Vessel Name"
  | 3 => "Flag / Class"
  | 4 => "Owners"
  | 5 => "Charterers"
  | 6 => "Brokers / Commission"
  | 7 => "Date & Place of Fixture"
  | 8 => "Laycan"
  | 9 => "Cargo Description"
  | 10 => "Quantity"
  | 11 => "Load Port(s)"
  | 12 => "Discharge Port(s)"
  | 13 => "Freight / Rate / Basis"
  | 14 => "Payment Terms"
  | 15 => "Laytime"
  | 16 => "Demurrage / Despatch"
  | 17 => "NOR / Notice / Time Counting"
  | 18 => "Law & Arbitration"
  | 19 => "Special Provisions"
  | _ => "None").data

/-- Word character for `\w` (ASCII fragment). -/
def wordChar (c : Char) : Bool := c.isAlphanum || c = '_'

/-- `re.match(r'^(VOY\d+|BALTIME|NYPE|GENCON).*', v, re.IGNORECASE)`. -/
def v1Match (v : Str) : Bool :=
  let u := v.map Char.toUpper
  (strIsPre "VOY".data u && ((u.drop 3).headD ' ').isDigit)
    || strIsPre "BALTIME".data u || strIsPre "NYPE".data u || strIsPre "GENCON".data u

/-- `re.match(r'^(MV|MS|MT|SS)\s+\w+', v, re.IGNORECASE)`. -/
def v2Match (v : Str) : Bool :=
  let u := v.map Char.toUpper
  (strIsPre "MV".data u || strIsPre "MS".data u || strIsPre "MT".data u
      || strIsPre "SS".data u)
    && (let r := u.drop 2
        !(r.takeWhile pySpace).isEmpty && wordChar ((r.dropWhile pySpace).headD '/'))

/-- `re.match(r'^\w+\s*/\s*\w+', v, re.IGNORECASE)`. -/
def v3Match (v : Str) : Bool :=
  let w1 := v.takeWhile wordChar
  let r := (v.dropWhile wordChar).dropWhile pySpace
  !w1.isEmpty &&
    (match r with
     | '/' :: rest => wordChar ((rest.dropWhile pySpace).headD '/')
     | _ => false)

/-- `FIELD_VALIDATORS` (`field_mapper.py` 33-37) as field/matcher
pairs, in dict order. -/
def fieldValidators : List (Nat × (Str → Bool)) :=
  [(1, v1Match), (2, v2Match), (3, v3Match)]

/-- The `required_fields` list (`field_mapper.py` 67). -/
def requiredFields : List Nat := [1, 2, 4, 5, 8, 9, 10, 11, 12, 13, 15]

/-- Decimal rendering of a field number for error messages. -/
def natToStr (n : Nat) : Str := (Nat.repr n).data

/-- Required-field failure: `field_num not in fields or not
fields[field_num].get("value", "").strip()` (line 70). -/
def reqMissing (fields : VFields) (k : Nat) : Bool :=
  match vLookup fields k with
  | Option.none => true
  | some e => (pyStrip (e.value.getD [])).isEmpty

/-- Format failure for a validator field: the field is present with a
truthy (non-empty) value that fails the pattern (lines 74-77). -/
def formatBad (fields : VFields) (k : Nat) (m : Str → Bool) : Bool :=
  match vLookup fields k with
  | Option.none => false
  | some e =>
    match e.value with
    | Option.none => false
    | some v => !v.isEmpty && !(m v)

/-- Message `f"Field {k} ({label}) is required"` (line 71). -/
def reqMsg (k : Nat) : Str :=
  "Field ".data ++ natToStr k ++ " (".data ++ fieldLabel k ++ ") is required".data

/-- Message `f"Field {k} format invalid: {value}"` (line 77). -/
def fmtMsg (fields : VFields) (k : Nat) : Str :=
  "Field ".data ++ natToStr k ++ " format invalid: ".data
    ++ (match vLookup fields k with
        | some e => e.value.getD []
        | Option.none => [])

/-- The `errors` dict built by `validate_fields` (`field_mapper.py`
66-77): the required-field loop runs first, then the format loop,
each assigning into the same dict. -/
def validationErrors (fields : VFields) : List (Nat × Str) :=
  fieldValidators.foldl
    (fun es p =>
      if formatBad fields p.1 p.2 then dictInsert es p.1 (fmtMsg fields p.1) else es)
    (requiredFields.foldl
      (fun es k => if reqMissing fields k then dictInsert es k (reqMsg k) else es) [])

/-- `validate_fields` (`field_mapper.py` 64-81): returns
`(len(errors) == 0, errors)`. -/
def validate_fields (fields : VFields) : Bool × List (Nat × Str) :=
  ((validationErrors fields).isEmpty, validationErrors fields)

/-! ### Specification-side vocabulary for the dedupe behaviour of
`_analyze_diff`: texts in first-occurrence order, each carrying the
data of its last occurrence. -/

/-- The string of a hashable text value. -/
def textStr : TextVal → Str
  | .str s => s
  | .badList => []

/-- The text of every flattened line, in document order. -/
def texts (l : List FlatLine) : List Str := l.map (fun it => textStr it.text)

/-- Distinct values in order of first occurrence. -/
def firstOccurrences : List Str → List Str
  | [] => []
  | t :: ts => t :: (firstOccurrences ts).filter (fun u => decide (u ≠ t))

/-- The last flattened line carrying the given text, if any. -/
def lastWith (l : List FlatLine) (t : Str) : Option FlatLine :=
  l.reverse.find? (fun it => decide (it.text = TextVal.str t))

/-- The text-keyed dict of `_analyze_diff`, described from the spec
side: keys in first-occurrence order, values from the last
occurrence. -/
def specDict (l : List FlatLine) : List (Str × FlatLine) :=
  (firstOccurrences (texts l)).filterMap
    (fun t => (lastWith l t).map (fun it => (t, it)))

/-- All text values of the flattened lines are hashable strings. -/
def cleanTexts (l : List FlatLine) : Prop :=
  ∀ it ∈ l, it.text ≠ TextVal.badList

instance (l : List FlatLine) : Decidable (cleanTexts l) := by
  unfold cleanTexts
  infer_instance

/-! ### Helper lemmas -/

theorem analyze_diff_ok_modified {tl rl : List FlatLine} {d : DiffResult}
    (h : analyze_diff tl rl = .ok d) : d.modified = [] := by
  unfold analyze_diff at h
  cases htd : buildTextDict [] tl with
  | error e => rw [htd] at h; exact Except.noConfusion h
  | ok td =>
    cases hrd : buildTextDict [] rl with
    | error e => rw [htd, hrd] at h; exact Except.noConfusion h
    | ok rd =>
      rw [htd, hrd] at h
      injection h with h'
      subst h'
      rfl

theorem classifyStage_ok_modified {t r : List PyClause} {d : DiffResult}
    (h : classifyStage t r = .ok d) : d.modified = [] := by
  unfold classifyStage at h
  cases ht : extract_clause_lines t with
  | error e => rw [ht] at h; exact Except.noConfusion h
  | ok tl =>
    cases hr : extract_clause_lines r with
    | error e => rw [ht, hr] at h; exact Except.noConfusion h
    | ok rl =>
      rw [ht, hr] at h
      exact analyze_diff_ok_modified h

theorem strIsPre_iff_take {p : Str} : ∀ {s : Str}, strIsPre p s = true ↔ s.take p.length = p := by
  induction p with
  | nil => intro s; simp [strIsPre]
  | cons c cs ih =>
    intro s
    cases s with
    | nil => simp [strIsPre]
    | cons d ds =>
      by_cases hcd : c = d
      · subst hcd
        simp [strIsPre, List.take, ih]
      · simp [strIsPre, hcd, List.take, Ne.symm hcd]

theorem contains_of_strIsPre {p t : Str} (h : strIsPre p t = true) :
    containsSeq p t = true := by
  cases t with
  | nil => simpa [containsSeq] using h
  | cons c rest => simp [containsSeq, h]

theorem strIsPre_append_self (p x : Str) : strIsPre p (p ++ x) = true := by
  rw [strIsPre_iff_take]
  exact List.take_left p x

theorem containsSeq_append_marker (A B : Str) :
    containsSeq partIIMarker (A ++ (partIIMarker ++ B)) = true := by
  induction A with
  | nil => simpa using contains_of_strIsPre (strIsPre_append_self partIIMarker B)
  | cons c A' ih => simp [containsSeq, ih]

theorem strIsPre_length {p : Str} : ∀ {s : Str}, strIsPre p s = true → p.length ≤ s.length := by
  induction p with
  | nil => intro s _; simp
  | cons c cs ih =>
    intro s h
    cases s with
    | nil => simp [strIsPre] at h
    | cons d ds =>
      by_cases hcd : c = d
      · subst hcd
        simp only [strIsPre, if_pos rfl] at h
        have := ih h
        simp [List.length_cons]
        omega
      · simp [strIsPre, hcd] at h

/-- No occurrence of the marker can start strictly inside a
marker-free prefix and run into the appended marker: `"Part II"` has
no non-trivial border. -/
theorem no_straddle (A B : Str) (hne : A ≠ [])
    (hA : containsSeq partIIMarker A = false) :
    strIsPre partIIMarker (A ++ (partIIMarker ++ B)) = false := by
  by_contra hcon
  rw [Bool.not_eq_false, strIsPre_iff_take] at hcon
  have hM7 : partIIMarker.length = 7 := by decide
  by_cases hlen : 7 ≤ A.length
  · have htake : (A ++ (partIIMarker ++ B)).take 7 = A.take 7 := by
      exact List.take_append_of_le_length hlen
    rw [hM7, htake] at hcon
    have hpre : strIsPre partIIMarker A = true := by
      rw [strIsPre_iff_take, hM7]
      exact hcon
    rw [contains_of_strIsPre hpre] at hA
    exact Bool.noConfusion hA
  · push_neg at hlen
    have hk1 : 1 ≤ A.length := List.length_pos.mpr hne
    have htake : (A ++ (partIIMarker ++ B)).take 7
        = A.take 7 ++ (partIIMarker ++ B).take (7 - A.length) := by
      exact List.take_append_eq_append_take
    have hA7 : A.take 7 = A := List.take_of_length_le (by omega)
    have hMtake : (partIIMarker ++ B).take (7 - A.length)
        = partIIMarker.take (7 - A.length) := by
      exact List.take_append_of_le_length (by rw [hM7]; omega)
    rw [hM7, htake, hA7, hMtake] at hcon
    have hAeq : partIIMarker.take A.length = A := by
      rw [← hcon]
      exact List.take_left A _
    have hM : partIIMarker
        = partIIMarker.take A.length ++ partIIMarker.take (7 - A.length) := by
      rw [hAeq]; exact hcon.symm
    set k := A.length with hkdef
    interval_cases k <;> exact absurd hM (by decide)

theorem splitGo_succ (f : Nat) (t : Str) :
    splitGo (f + 1) t =
      if strIsPre partIIMarker t then
        [] :: splitGo f (t.drop partIIMarker.length)
      else
        match t with
        | [] => [[]]
        | c :: rest => consHead c (splitGo f rest) := by
  rw [splitGo.eq_def]

theorem splitGo_succ_pos {f : Nat} {t : Str} (h : strIsPre partIIMarker t = true) :
    splitGo (f + 1) t = [] :: splitGo f (t.drop partIIMarker.length) := by
  rw [splitGo_succ, if_pos h]

theorem splitGo_succ_neg_cons {f : Nat} {c : Char} {rest : Str}
    (h : ¬ strIsPre partIIMarker (c :: rest) = true) :
    splitGo (f + 1) (c :: rest) = consHead c (splitGo f rest) := by
  rw [splitGo_succ, if_neg h]

theorem splitGo_fuel : ∀ (f1 : Nat) {f2 : Nat} {t : Str}, t.length < f1 → t.length < f2 →
    splitGo f1 t = splitGo f2 t := by
  intro f1
  induction f1 with
  | zero => intro f2 t h1 _; omega
  | succ f ih =>
    intro f2 t h1 h2
    cases f2 with
    | zero => omega
    | succ f2' =>
      by_cases hp : strIsPre partIIMarker t = true
      · have hlen := strIsPre_length hp
        have hM7 : partIIMarker.length = 7 := by decide
        rw [splitGo_succ_pos hp, splitGo_succ_pos hp]
        have hdrop : (t.drop partIIMarker.length).length < f := by
          rw [List.length_drop, hM7]; omega
        have hdrop2 : (t.drop partIIMarker.length).length < f2' := by
          rw [List.length_drop, hM7]; omega
        rw [ih hdrop hdrop2]
      · cases t with
        | nil => rfl
        | cons c rest =>
          have hr1 : rest.length < f := by simp at h1; omega
          have hr2 : rest.length < f2' := by simp at h2; omega
          rw [splitGo_succ_neg_cons hp, splitGo_succ_neg_cons hp, ih hr1 hr2]

theorem splitGo_no_occ : ∀ {t : Str} {f : Nat}, containsSeq partIIMarker t = false →
    t.length < f → splitGo f t = [t] := by
  intro t
  induction t with
  | nil =>
    intro f h hf
    cases f with
    | zero => omega
    | succ f' => rfl
  | cons c rest ih =>
    intro f h hf
    cases f with
    | zero => omega
    | succ f' =>
      simp only [containsSeq, Bool.or_eq_false_iff] at h
      rw [splitGo_succ_neg_cons (by rw [h.1]; exact Bool.false_ne_true)]
      rw [ih h.2 (by simp at hf; omega)]
      rfl

theorem splitGo_marker : ∀ (A : Str) {B : Str} {f : Nat},
    containsSeq partIIMarker A = false → (A ++ (partIIMarker ++ B)).length < f →
    splitGo f (A ++ (partIIMarker ++ B)) = A :: splitGo (B.length + 1) B := by
  intro A
  induction A with
  | nil =>
    intro B f _ hf
    cases f with
    | zero => omega
    | succ f' =>
      rw [List.nil_append]
      rw [splitGo_succ_pos (strIsPre_append_self partIIMarker B)]
      rw [List.drop_left partIIMarker B]
      have hlen : B.length < f' := by
        have h7 : partIIMarker.length = 7 := by decide
        simp [List.length_append, h7] at hf
        omega
      rw [splitGo_fuel f' hlen (Nat.lt_succ_self _)]
  | cons c A' ih =>
    intro B f hA hf
    cases f with
    | zero => omega
    | succ f' =>
      simp only [containsSeq, Bool.or_eq_false_iff] at hA
      have hstr : strIsPre partIIMarker ((c :: A') ++ (partIIMarker ++ B)) = false :=
        no_straddle (c :: A') B (by simp)
          (by simp only [containsSeq, Bool.or_eq_false_iff]; exact hA)
      rw [List.cons_append]
      rw [splitGo_succ_neg_cons (by rw [List.cons_append] at hstr; rw [hstr]; exact Bool.false_ne_true)]
      rw [ih hA.2 (by simp at hf ⊢; omega)]
      rfl

theorem partIIText_no_occ {t : Str} (h : containsSeq partIIMarker t = false) :
    partIIText t = t := by
  unfold partIIText
  rw [h]
  simp

theorem partIIText_one_marker {pre mid : Str}
    (h1 : containsSeq partIIMarker pre = false)
    (h2 : containsSeq partIIMarker mid = false) :
    partIIText (pre ++ (partIIMarker ++ mid)) = mid := by
  unfold partIIText splitPartII
  rw [containsSeq_append_marker pre mid, if_pos rfl]
  rw [splitGo_marker pre h1 (Nat.lt_succ_self _)]
  rw [splitGo_no_occ h2 (Nat.lt_succ_self _)]
  rfl

theorem partIIText_two_markers {pre mid post : Str}
    (h1 : containsSeq partIIMarker pre = false)
    (h2 : containsSeq partIIMarker mid = false) :
    partIIText (pre ++ (partIIMarker ++ (mid ++ (partIIMarker ++ post)))) = mid := by
  unfold partIIText splitPartII
  rw [containsSeq_append_marker pre (mid ++ (partIIMarker ++ post)), if_pos rfl]
  rw [splitGo_marker pre h1 (Nat.lt_succ_self _)]
  rw [splitGo_marker mid h2 (Nat.lt_succ_self _)]
  rfl

theorem length_dropWhile_le_my (p : Char → Bool) (l : Str) :
    (l.dropWhile p).length ≤ l.length := by
  induction l with
  | nil => simp
  | cons c rest ih =>
    by_cases h : p c
    · rw [List.dropWhile_cons_of_pos h]
      simp only [List.length_cons]
      omega
    · rw [List.dropWhile_cons_of_neg h]

theorem dropWhile_eq_self_of_strip (l : Str) (h : pyStrip l = l) :
    l.dropWhile pySpace = l := by
  cases l with
  | nil => rfl
  | cons c rest =>
    by_cases hc : pySpace c
    · exfalso
      have h1 : ((c :: rest).dropWhile pySpace).length ≤ rest.length := by
        rw [List.dropWhile_cons_of_pos hc]
        exact length_dropWhile_le_my pySpace rest
      have h2 : (pyStrip (c :: rest)).length ≤ ((c :: rest).dropWhile pySpace).length := by
        unfold pyStrip
        rw [List.length_reverse]
        calc (((c :: rest).dropWhile pySpace).reverse.dropWhile pySpace).length
            ≤ ((c :: rest).dropWhile pySpace).reverse.length :=
              length_dropWhile_le_my _ _
          _ = ((c :: rest).dropWhile pySpace).length := List.length_reverse _
      rw [h] at h2
      simp only [List.length_cons] at h2
      omega
    · exact List.dropWhile_cons_of_neg hc

theorem scanAux_agree : ∀ (lines : List Str), (∀ l ∈ lines, pyStrip l = l) →
    ∀ cur, scanTAux lines cur = scanFAux lines cur := by
  intro lines
  induction lines with
  | nil => intro _ cur; rfl
  | cons l rest ih =>
    intro h cur
    have hl : pyStrip l = l := h l (List.mem_cons_self l rest)
    have hrest : ∀ x ∈ rest, pyStrip x = x := fun x hx => h x (List.mem_cons_of_mem l hx)
    have hdw : l.dropWhile pySpace = l := dropWhile_eq_self_of_strip l hl
    cases l with
    | nil =>
      have hh : clauseHeaderNum [] = Option.none := rfl
      have hn : numberedLine [] = Option.none := rfl
      simp only [scanTAux, scanFAux, hh, hn, numberedLineWs, List.dropWhile_nil]
      simp only [pyStrip, List.dropWhile_nil, List.reverse_nil, List.isEmpty_nil, if_pos]
      cases cur with
      | none => exact ih hrest Option.none
      | some c =>
        simp only [List.isEmpty_nil, if_pos]
        exact ih hrest (some c)
    | cons a as =>
      simp only [scanTAux, scanFAux, hl, numberedLineWs, hdw, List.isEmpty_cons,
        Bool.false_eq_true, if_neg, not_false_iff]
      cases hh : clauseHeaderNum (a :: as) with
      | some n =>
        show emitCur cur ++ scanTAux rest (some ⟨some n, some (a :: as), some []⟩)
            = emitCur cur ++ scanFAux rest (some ⟨some n, some (a :: as), some []⟩)
        rw [ih hrest (some ⟨some n, some (a :: as), some []⟩)]
      | none =>
        cases hn : numberedLine (a :: as) with
        | some kg =>
          obtain ⟨k, g2⟩ := kg
          cases cur with
          | none => exact ih hrest Option.none
          | some c =>
            show scanTAux rest (some (pushContent c
                  ⟨.num k, some (.str (pyStrip g2)), Option.none⟩))
                = scanFAux rest (some (pushContent c
                  ⟨.num k, some (.str (pyStrip g2)), Option.none⟩))
            exact ih hrest _
        | none =>
          cases cur with
          | none => exact ih hrest Option.none
          | some c =>
            show scanTAux rest (some (pushContent c
                  ⟨.none, some (.str (a :: as)), Option.none⟩))
                = scanFAux rest (some (pushContent c
                  ⟨.none, some (.str (a :: as)), Option.none⟩))
            exact ih hrest _

theorem mem_dictKeys_dictInsert {α β : Type} [DecidableEq α]
    (m : List (α × β)) (k a : α) (v : β) :
    a ∈ dictKeys (dictInsert m k v) ↔ a = k ∨ a ∈ dictKeys m := by
  unfold dictInsert dictKeys
  by_cases hp : m.any (fun p => decide (p.1 = k)) = true
  · rw [if_pos hp]
    rw [List.map_map]
    simp only [List.mem_map, Function.comp]
    constructor
    · rintro ⟨p, hpm, hfst⟩
      by_cases h1 : p.1 = k
      · rw [if_pos h1] at hfst
        exact Or.inl hfst.symm
      · rw [if_neg h1] at hfst
        exact Or.inr ⟨p, hpm, hfst⟩
    · rintro (rfl | ⟨p, hpm, hfst⟩)
      · rw [List.any_eq_true] at hp
        obtain ⟨p, hpm, hpk⟩ := hp
        rw [decide_eq_true_eq] at hpk
        exact ⟨p, hpm, by rw [if_pos hpk]⟩
      · by_cases h1 : p.1 = k
        · exact ⟨p, hpm, by rw [if_pos h1]; rw [← hfst, h1]⟩
        · exact ⟨p, hpm, by rw [if_neg h1]; exact hfst⟩
  · rw [if_neg hp]
    rw [List.map_append]
    simp only [List.map_cons, List.map_nil, List.mem_append, List.mem_singleton]
    constructor
    · rintro (h | h)
      · exact Or.inr h
      · exact Or.inl h
    · rintro (h | h)
      · exact Or.inr h
      · exact Or.inl h

theorem partIAux_succ (lines : List Str) (f i : Nat) (acc : FieldMap) :
    partIAux lines (f + 1) i acc =
      if h : i < lines.length then
        (if containsSeq partIIMarker (pyStrip (lines.get ⟨i, h⟩)) then acc
        else
          match fieldHeader (pyStrip (lines.get ⟨i, h⟩)) with
          | some (n, g2) =>
            partIAux lines f ((consumeValues lines (lines.length + 1) (i + 1)).2 + 1)
              (if 1 ≤ n ∧ n ≤ 19 then
                dictInsert acc n
                  ⟨pyStrip g2, pyStrip (joinSpace (consumeValues lines (lines.length + 1) (i + 1)).1),
                    (consumeValues lines (lines.length + 1) (i + 1)).2⟩
              else acc)
          | Option.none => partIAux lines f (i + 1) acc)
      else acc := rfl

theorem partIAux_keys (lines : List Str) :
    ∀ (fuel i : Nat) (acc : FieldMap) (k : Nat),
      k ∈ dictKeys (partIAux lines fuel i acc) →
      k ∈ dictKeys acc ∨ (1 ≤ k ∧ k ≤ 19) := by
  intro fuel
  induction fuel with
  | zero => intro i acc k h; exact Or.inl h
  | succ f ih =>
    intro i acc k h
    rw [partIAux_succ] at h
    by_cases hi : i < lines.length
    · rw [dif_pos hi] at h
      by_cases hc : containsSeq partIIMarker (pyStrip (lines.get ⟨i, hi⟩)) = true
      · rw [if_pos hc] at h
        exact Or.inl h
      · rw [if_neg hc] at h
        cases hfh : fieldHeader (pyStrip (lines.get ⟨i, hi⟩)) with
        | none =>
          rw [hfh] at h
          exact ih (i + 1) acc k h
        | some nk =>
          obtain ⟨n, g2⟩ := nk
          rw [hfh] at h
          rcases ih _ _ k h with hacc | hrange
          · by_cases hr : 1 ≤ n ∧ n ≤ 19
            · rw [if_pos hr] at hacc
              rcases (mem_dictKeys_dictInsert acc n k _).mp hacc with rfl | hk
              · exact Or.inr hr
              · exact Or.inl hk
            · rw [if_neg hr] at hacc
              exact Or.inl hacc
          · exact Or.inr hrange
    · rw [dif_neg hi] at h
      exact Or.inl h

theorem mem_dictKeys_foldl_insert {α : Type} (key : α → Nat) (p : α → Bool) (msg : α → Str) :
    ∀ (l : List α) (es : List (Nat × Str)) (k : Nat),
      (k ∈ dictKeys (l.foldl
        (fun es x => if p x then dictInsert es (key x) (msg x) else es) es))
      ↔ k ∈ dictKeys es ∨ ∃ x ∈ l, p x = true ∧ key x = k := by
  intro l
  induction l with
  | nil => intro es k; simp
  | cons x xs ih =>
    intro es k
    rw [List.foldl_cons, ih]
    by_cases hx : p x = true
    · rw [if_pos hx, mem_dictKeys_dictInsert]
      constructor
      · rintro ((rfl | h) | ⟨y, hy, hpy, hky⟩)
        · exact Or.inr ⟨x, List.mem_cons_self _ _, hx, rfl⟩
        · exact Or.inl h
        · exact Or.inr ⟨y, List.mem_cons_of_mem _ hy, hpy, hky⟩
      · rintro (h | ⟨y, hy, hpy, hky⟩)
        · exact Or.inl (Or.inr h)
        · rcases List.mem_cons.mp hy with rfl | hy'
          · exact Or.inl (Or.inl hky.symm)
          · exact Or.inr ⟨y, hy', hpy, hky⟩
    · rw [if_neg hx]
      constructor
      · rintro (h | ⟨y, hy, hpy, hky⟩)
        · exact Or.inl h
        · exact Or.inr ⟨y, List.mem_cons_of_mem _ hy, hpy, hky⟩
      · rintro (h | ⟨y, hy, hpy, hky⟩)
        · exact Or.inl h
        · rcases List.mem_cons.mp hy with rfl | hy'
          · exact absurd hpy hx
          · exact Or.inr ⟨y, hy', hpy, hky⟩

theorem mem_dictKeys_validationErrors (fields : VFields) (k : Nat) :
    k ∈ dictKeys (validationErrors fields)
    ↔ (∃ x ∈ requiredFields, reqMissing fields x = true ∧ x = k)
      ∨ ∃ q ∈ fieldValidators, formatBad fields q.1 q.2 = true ∧ q.1 = k := by
  unfold validationErrors
  rw [mem_dictKeys_foldl_insert Prod.fst
    (fun q => formatBad fields q.1 q.2) (fun q => fmtMsg fields q.1) fieldValidators]
  rw [mem_dictKeys_foldl_insert (fun x => x)
    (fun x => reqMissing fields x) reqMsg requiredFields]
  simp only [dictKeys, List.map_nil, List.not_mem_nil, false_or]

theorem newCond_iff (it : ContentItem) :
    ((!(it.original.getD false) && !it.line.truthy) = true)
    ↔ ((it.original = Option.none ∨ it.original = some false)
        ∧ (it.line = LineVal.none ∨ it.line = LineVal.num 0)) := by
  rcases it with ⟨line, text, orig⟩
  cases orig with
  | none =>
    cases line with
    | none => simp [LineVal.truthy]
    | num n =>
      cases n with
      | zero => simp [LineVal.truthy]
      | succ m => simp [LineVal.truthy]
    | badList => simp [LineVal.truthy]
  | some b =>
    cases b <;> cases line with
    | num n => cases n with
      | zero => simp [LineVal.truthy]
      | succ m => simp [LineVal.truthy]
    | _ => simp [LineVal.truthy]

theorem findNewRecapPass_spec : ∀ (r : List PyClause), PyClause.invalid ∉ r →
    findNewRecapPass r = .ok ((r.map fun pc =>
      match pc with
      | .dict c => (c.content.getD []).filterMap fun it =>
          if (it.original = Option.none ∨ it.original = some false)
              ∧ (it.line = LineVal.none ∨ it.line = LineVal.num 0) then
            some (⟨it.text.getD (.str []), c.title.getD [], "after_clause".data⟩ : NewRecord)
          else Option.none
      | .invalid => []).flatten) := by
  intro r
  induction r with
  | nil => intro _; rfl
  | cons pc rest ih =>
    intro h
    cases pc with
    | invalid => exact absurd (List.mem_cons_self _ _) h
    | dict c =>
      have hrest : PyClause.invalid ∉ rest := fun hx => h (List.mem_cons_of_mem _ hx)
      show (findNewRecapPass rest).map _ = _
      rw [ih hrest]
      simp only [List.map_cons, List.flatten, Except.map]
      congr 1
      congr 1
      have hfun : (fun it : ContentItem =>
          if !(it.original.getD false) && !it.line.truthy then
            some (⟨it.text.getD (.str []), c.title.getD [], "after_clause".data⟩ : NewRecord)
          else Option.none)
          = (fun it : ContentItem =>
          if (it.original = Option.none ∨ it.original = some false)
              ∧ (it.line = LineVal.none ∨ it.line = LineVal.num 0) then
            some (⟨it.text.getD (.str []), c.title.getD [], "after_clause".data⟩ : NewRecord)
          else Option.none) := by
        funext it
        by_cases hp : (it.original = Option.none ∨ it.original = some false)
            ∧ (it.line = LineVal.none ∨ it.line = LineVal.num 0)
        · rw [if_pos hp, if_pos ((newCond_iff it).mpr hp)]
        · rw [if_neg hp, if_neg (fun hb => hp ((newCond_iff it).mp hb))]
      rw [hfun]

theorem filterMap_congr_mem {α β : Type} (l : List α) (f g : α → Option β)
    (h : ∀ a ∈ l, f a = g a) : l.filterMap f = l.filterMap g := by
  induction l with
  | nil => rfl
  | cons a l' ih =>
    rw [List.filterMap_cons, List.filterMap_cons,
      h a (List.mem_cons_self _ _), ih (fun x hx => h x (List.mem_cons_of_mem _ hx))]

theorem mem_firstOccurrences {u : Str} : ∀ {l : List Str},
    u ∈ firstOccurrences l ↔ u ∈ l := by
  intro l
  induction l with
  | nil => simp [firstOccurrences]
  | cons t ts ih =>
    simp only [firstOccurrences, List.mem_cons, List.mem_filter, ih]
    by_cases hut : u = t
    · simp [hut]
    · simp [hut]

theorem firstOccurrences_append (l : List Str) (t : Str) :
    firstOccurrences (l ++ [t])
      = if t ∈ l then firstOccurrences l else firstOccurrences l ++ [t] := by
  induction l with
  | nil => simp [firstOccurrences]
  | cons c l' ih =>
    rw [List.cons_append]
    show c :: (firstOccurrences (l' ++ [t])).filter (fun u => decide (u ≠ c)) = _
    rw [ih]
    by_cases htl : t ∈ l'
    · rw [if_pos htl, if_pos (List.mem_cons_of_mem _ htl)]
      rfl
    · rw [if_neg htl]
      by_cases htc : t = c
      · rw [if_pos (by rw [htc]; exact List.mem_cons_self _ _)]
        rw [List.filter_append]
        simp [htc, firstOccurrences]
      · rw [if_neg (by simp [List.mem_cons, htc, htl])]
        rw [List.filter_append]
        simp [firstOccurrences, List.filter_cons, htc]

theorem lastWith_append (l : List FlatLine) (x : FlatLine) (t : Str) :
    lastWith (l ++ [x]) t
      = if x.text = TextVal.str t then some x else lastWith l t := by
  unfold lastWith
  rw [List.reverse_append]
  by_cases h : x.text = TextVal.str t
  · rw [if_pos h]
    show List.find? _ (x :: l.reverse) = some x
    rw [List.find?_cons_of_pos _ (by simp [h])]
  · rw [if_neg h]
    show List.find? _ (x :: l.reverse) = _
    rw [List.find?_cons_of_neg _ (by simp [h])]

theorem any_fst_eq_mem_keys {β : Type} (m : List (Str × β)) (k : Str) :
    m.any (fun p => decide (p.1 = k)) = true ↔ k ∈ dictKeys m := by
  rw [List.any_eq_true]
  unfold dictKeys
  simp only [List.mem_map, decide_eq_true_eq]

theorem lastWith_isSome {l : List FlatLine} {t : Str}
    (hcl : cleanTexts l) (ht : t ∈ texts l) : (lastWith l t).isSome := by
  unfold texts at ht
  rw [List.mem_map] at ht
  obtain ⟨it, hit, hts⟩ := ht
  unfold lastWith
  rw [List.find?_isSome]
  refine ⟨it, List.mem_reverse.mpr hit, ?_⟩
  cases hx : it.text with
  | badList => exact absurd hx (hcl it hit)
  | str s =>
    rw [hx] at hts
    simp only [textStr] at hts
    subst hts
    simp [hx]

theorem keys_filterMapTotal : ∀ (ts : List Str) (f : Str → Option FlatLine),
    (∀ t ∈ ts, (f t).isSome) →
    dictKeys (ts.filterMap (fun t => (f t).map (fun it => (t, it)))) = ts := by
  intro ts
  induction ts with
  | nil => intro f _; rfl
  | cons t ts' ih =>
    intro f h
    rw [List.filterMap_cons]
    cases hf : f t with
    | none => exact absurd (hf ▸ h t (List.mem_cons_self _ _)) (by simp)
    | some it =>
      show dictKeys ((t, it) :: ts'.filterMap (fun u => (f u).map (fun v => (u, v)))) = t :: ts'
      unfold dictKeys
      rw [List.map_cons]
      show t :: dictKeys (ts'.filterMap (fun u => (f u).map (fun v => (u, v)))) = t :: ts'
      rw [ih f (fun u hu => h u (List.mem_cons_of_mem _ hu))]

theorem keys_specDict {l : List FlatLine} (hcl : cleanTexts l) :
    dictKeys (specDict l) = firstOccurrences (texts l) :=
  keys_filterMapTotal (firstOccurrences (texts l)) (lastWith l)
    (fun _ ht => lastWith_isSome hcl (mem_firstOccurrences.mp ht))

theorem buildTextDict_append : ∀ (l1 l2 : List FlatLine) (acc : List (Str × FlatLine)),
    buildTextDict acc (l1 ++ l2)
      = match buildTextDict acc l1 with
        | .error e => .error e
        | .ok d => buildTextDict d l2 := by
  intro l1
  induction l1 with
  | nil => intro l2 acc; rfl
  | cons it l1' ih =>
    intro l2 acc
    rw [List.cons_append]
    cases hx : it.text with
    | badList =>
      show (match it.text with
        | .badList => Except.error ()
        | .str s => buildTextDict (dictInsert acc s it) (l1' ++ l2)) = _
      rw [hx]
      have hleft : buildTextDict acc (it :: l1') = .error () := by
        show (match it.text with
          | .badList => Except.error ()
          | .str s => buildTextDict (dictInsert acc s it) l1') = _
        rw [hx]
      rw [hleft]
    | str s =>
      show (match it.text with
        | .badList => Except.error ()
        | .str s => buildTextDict (dictInsert acc s it) (l1' ++ l2)) = _
      rw [hx]
      have hleft : buildTextDict acc (it :: l1')
          = buildTextDict (dictInsert acc s it) l1' := by
        show (match it.text with
          | .badList => Except.error ()
          | .str s => buildTextDict (dictInsert acc s it) l1') = _
        rw [hx]
      rw [hleft]
      show buildTextDict (dictInsert acc s it) (l1' ++ l2)
          = match buildTextDict (dictInsert acc s it) l1' with
            | Except.error e => Except.error e
            | Except.ok d => buildTextDict d l2
      exact ih l2 (dictInsert acc s it)

theorem buildTextDict_clean : ∀ (l : List FlatLine), cleanTexts l →
    buildTextDict [] l = .ok (specDict l) := by
  intro l
  induction l using List.reverseRecOn with
  | nil => intro _; rfl
  | append_singleton l x ih =>
    intro h
    have hcl : cleanTexts l := fun it hit => h it (List.mem_append_left _ hit)
    have hx : x.text ≠ TextVal.badList := h x (List.mem_append_right _ (by simp))
    cases hxt : x.text with
    | badList => exact absurd hxt hx
    | str sx =>
      rw [buildTextDict_append l [x] [], ih hcl]
      show buildTextDict (specDict l) [x] = Except.ok (specDict (l ++ [x]))
      show (match x.text with
        | TextVal.badList => Except.error ()
        | TextVal.str s => buildTextDict (dictInsert (specDict l) s x) [])
        = Except.ok (specDict (l ++ [x]))
      rw [hxt]
      show Except.ok (dictInsert (specDict l) sx x) = Except.ok (specDict (l ++ [x]))
      congr 1
      have htexts : texts (l ++ [x]) = texts l ++ [sx] := by
        unfold texts
        rw [List.map_append]
        simp [hxt, textStr]
      rw [show specDict (l ++ [x])
          = (firstOccurrences (texts l ++ [sx])).filterMap
              (fun t => (lastWith (l ++ [x]) t).map (fun it => (t, it))) from by
        unfold specDict; rw [htexts]]
      rw [firstOccurrences_append]
      by_cases hmem : sx ∈ texts l
      · rw [if_pos hmem]
        have hpres : (specDict l).any (fun p => decide (p.1 = sx)) = true :=
          (any_fst_eq_mem_keys _ sx).mpr
            (by rw [keys_specDict hcl]; exact mem_firstOccurrences.mpr hmem)
        unfold dictInsert
        rw [if_pos hpres]
        unfold specDict
        rw [List.map_filterMap]
        apply filterMap_congr_mem
        intro t ht
        have ht' : t ∈ texts l := mem_firstOccurrences.mp ht
        by_cases hts : t = sx
        · subst hts
          obtain ⟨it0, hit0⟩ :=
            Option.isSome_iff_exists.mp (lastWith_isSome hcl ht')
          rw [hit0, lastWith_append, if_pos (by rw [hxt])]
          simp
        · rw [lastWith_append,
            if_neg (by rw [hxt]; simp [Ne.symm hts])]
          cases hlw : lastWith l t with
          | none => rfl
          | some it0 => simp [hts]
      · rw [if_neg hmem]
        have hpres : ¬ (specDict l).any (fun p => decide (p.1 = sx)) = true := by
          rw [any_fst_eq_mem_keys, keys_specDict hcl, mem_firstOccurrences]
          exact hmem
        unfold dictInsert
        rw [if_neg hpres]
        rw [List.filterMap_append]
        congr 1
        · unfold specDict
          apply filterMap_congr_mem
          intro t ht
          have ht' : t ∈ texts l := mem_firstOccurrences.mp ht
          rw [lastWith_append,
            if_neg (by rw [hxt]; intro hh; simp at hh; exact hmem (hh ▸ ht'))]
        · simp [List.filterMap_cons, lastWith_append, hxt]

/-! ### Claim theorems -/

/-- C7: `validate_fields` is a total function (never raises) whose
pass flag is true exactly when the error map is empty; the error map
gains an entry for every required field (1, 2, 4, 5, 8, 9, 10, 11,
12, 13, 15) whose value is absent or whitespace-blank, and an entry
for every validator-equipped field whose present non-empty value
fails its pattern. -/
theorem validate_fields_spec (fields : VFields) :
    ((validate_fields fields).1 = true ↔ (validate_fields fields).2 = [])
    ∧ (∀ k ∈ requiredFields, reqMissing fields k = true →
        k ∈ dictKeys (validate_fields fields).2)
    ∧ (∀ q ∈ fieldValidators, formatBad fields q.1 q.2 = true →
        q.1 ∈ dictKeys (validate_fields fields).2) := by
  refine ⟨List.isEmpty_iff, ?_, ?_⟩
  · intro k hk hmiss
    exact (mem_dictKeys_validationErrors fields k).mpr (Or.inl ⟨k, hk, hmiss, rfl⟩)
  · intro q hq hbad
    exact (mem_dictKeys_validationErrors fields q.1).mpr (Or.inr ⟨q, hq, hbad, rfl⟩)

theorem validate_fields_spec_witness :
    ((validate_fields [(1, ⟨some "BADFORM".data⟩)]).1 = true
      ↔ (validate_fields [(1, ⟨some "BADFORM".data⟩)]).2 = [])
    ∧ 2 ∈ dictKeys (validate_fields [(1, ⟨some "BADFORM".data⟩)]).2
    ∧ 1 ∈ dictKeys (validate_fields [(1, ⟨some "BADFORM".data⟩)]).2 :=
  ⟨(validate_fields_spec [(1, ⟨some "BADFORM".data⟩)]).1,
   (validate_fields_spec [(1, ⟨some "BADFORM".data⟩)]).2.1 2 (by decide) (by decide),
   (validate_fields_spec [(1, ⟨some "BADFORM".data⟩)]).2.2 (1, v1Match) (by simp [fieldValidators])
     (by decide)⟩

/-- C6: on template Part II lines `["Clause 1. Definitions",
"1 This is line one", "2 This is line two"]` and recap Part II lines
`["Clause 1. Definitions", "1 This is line one",
"3 A new inserted line"]`, extraction followed by `detect_amendments`
yields exactly one deleted record (text `"This is line two"`, line 2,
clause `"Clause 1. Definitions"`), empty `added`, and empty `new`. -/
theorem c6_scenario_deleted_line_two :
    detect_amendments
      ((scanClausesTemplate
        ["Clause 1. Definitions".data, "1 This is line one".data,
         "2 This is line two".data]).map PyClause.dict)
      ((scanClausesFilled
        ["Clause 1. Definitions".data, "1 This is line one".data,
         "3 A new inserted line".data]).map PyClause.dict)
    = ⟨[⟨.str "This is line two".data, .num 2, "Clause 1. Definitions".data⟩],
        [], some [], []⟩ := by
  decide

/-- C5: every key of the field map returned by filled-mode Part I
extraction lies in `[1, 19]`, for every raw line sequence; and a
header line with an out-of-range leading number (here `25.`) still
consumes the following non-blank lines as its value block — the
consumed line appears in no field's value — while contributing no
entry to the map. -/
theorem part_i_filled_keys_in_range :
    (∀ (lines : List Str) (k : Nat),
      k ∈ dictKeys (extract_part_i_filled lines) → 1 ≤ k ∧ k ≤ 19)
    ∧ (∀ (lines : List Str) (fuel i : Nat) (acc : FieldMap) (n : Nat) (g2 : Str)
        (h : i < lines.length),
        fieldHeader (pyStrip (lines.get ⟨i, h⟩)) = some (n, g2) →
        containsSeq partIIMarker (pyStrip (lines.get ⟨i, h⟩)) = false →
        ¬(1 ≤ n ∧ n ≤ 19) →
        partIAux lines (fuel + 1) i acc
          = partIAux lines fuel
              ((consumeValues lines (lines.length + 1) (i + 1)).2 + 1) acc)
    ∧ extract_part_i_filled
        ["1. Charter Party Form".data, "GENCON".data, "25. Stray".data,
         "swallowed".data, "2. Vessel Name".data, "MV Foo".data]
      = [(1, ⟨"Charter Party Form".data, "GENCON".data, 1⟩),
         (2, ⟨"Vessel Name".data, "MV Foo".data, 6⟩)] := by
  refine ⟨?_, ?_, by decide⟩
  · intro lines k h
    rcases partIAux_keys lines (lines.length + 1) 0 [] k h with habs | hr
    · exact absurd habs (by simp [dictKeys])
    · exact hr
  · intro lines fuel i acc n g2 h hfh hc hrange
    rw [partIAux_succ, dif_pos h, if_neg (by rw [hc]; exact Bool.false_ne_true), hfh]
    show partIAux lines fuel ((consumeValues lines (lines.length + 1) (i + 1)).2 + 1)
        (if 1 ≤ n ∧ n ≤ 19 then
          dictInsert acc n
            ⟨pyStrip g2,
              pyStrip (joinSpace (consumeValues lines (lines.length + 1) (i + 1)).1),
              (consumeValues lines (lines.length + 1) (i + 1)).2⟩
        else acc)
      = partIAux lines fuel ((consumeValues lines (lines.length + 1) (i + 1)).2 + 1) acc
    rw [if_neg hrange]

theorem part_i_filled_keys_in_range_witness :
    (1 ≤ 1 ∧ 1 ≤ 19)
    ∧ partIAux ["25. Stray".data, "eaten".data] 1 0 []
      = partIAux ["25. Stray".data, "eaten".data] 0 3 [] :=
  ⟨part_i_filled_keys_in_range.1 ["1. Charter Party Form".data, "GENCON 94".data] 1
     (by decide),
   part_i_filled_keys_in_range.2.1 ["25. Stray".data, "eaten".data] 0 0 [] 25
     "Stray".data (by decide) (by decide) (by decide) (by decide)⟩

/-- C3 (amended): `detect_amendments`' new-line pass emits a `new`
record exactly for those recap ContentLines whose `line` value is
falsy (absent or `0`) and whose `original` flag is *not truthy*
(absent or explicitly false) — `_find_new_lines` reads the flag with
default `False`, so an unnumbered ContentLine carrying no `original`
key *does* produce a `new` record, contrary to the original claim. -/
theorem find_new_records_characterization (t r : List PyClause)
    (h1 : findNewTemplatePass t = .ok ())
    (h2 : PyClause.invalid ∉ r) :
    find_new_lines t r = .ok ((r.map fun pc =>
      match pc with
      | .dict c => (c.content.getD []).filterMap fun it =>
          if (it.original = Option.none ∨ it.original = some false)
              ∧ (it.line = LineVal.none ∨ it.line = LineVal.num 0) then
            some (⟨it.text.getD (.str []), c.title.getD [], "after_clause".data⟩ : NewRecord)
          else Option.none
      | .invalid => []).flatten) := by
  unfold find_new_lines
  rw [h1]
  exact findNewRecapPass_spec r h2

/-- C3 counterexample: a recap ContentLine with no `line` key and *no*
`original` key produces a `new` record (the claim says it must not,
since `original` is not explicitly false). -/
theorem find_new_emitted_without_original_key :
    (detect_amendments []
        [PyClause.dict ⟨Option.none, some "T".data,
          some [⟨LineVal.none, some (TextVal.str "x".data), Option.none⟩]⟩]).new
      = some [⟨.str "x".data, "T".data, "after_clause".data⟩]
    ∧ (detect_amendments []
        [PyClause.dict ⟨Option.none, some "T".data,
          some [⟨LineVal.none, some (TextVal.str "x".data), Option.none⟩]⟩]).new
      ≠ some [] := by
  refine ⟨by decide, by decide⟩

theorem find_new_records_characterization_witness :
    find_new_lines []
        [PyClause.dict ⟨Option.none, some "T".data,
          some [⟨LineVal.num 0, some (TextVal.str "y".data), some false⟩,
                ⟨LineVal.num 3, some (TextVal.str "skip".data), Option.none⟩]⟩]
      = .ok [⟨.str "y".data, "T".data, "after_clause".data⟩] := by
  have h := find_new_records_characterization []
    [PyClause.dict ⟨Option.none, some "T".data,
      some [⟨LineVal.num 0, some (TextVal.str "y".data), some false⟩,
            ⟨LineVal.num 3, some (TextVal.str "skip".data), Option.none⟩]⟩]
    rfl (by decide)
  rw [h]
  decide

/-- C9: in the new-line pass a recap ContentLine whose `line` is `0`
(producible by filled-mode extraction from a source line starting
`"0 "`) is treated exactly like a ContentLine with no line number:
whenever its `original` flag is not explicitly truthy it is emitted as
a `new` record even though it carries a printed line number. -/
theorem line_zero_treated_as_unnumbered :
    scanClausesFilled ["Clause 1. T".data, "0 zero line".data]
      = [⟨some 1, some "Clause 1. T".data,
          some [⟨.num 0, some (.str "zero line".data), Option.none⟩]⟩]
    ∧ (∀ (t : List PyClause) (title : Option Str) (txt : Option TextVal) (orig : Option Bool),
        find_new_lines t [.dict ⟨Option.none, title, some [⟨.num 0, txt, orig⟩]⟩]
          = find_new_lines t [.dict ⟨Option.none, title, some [⟨.none, txt, orig⟩]⟩])
    ∧ (∀ (t : List PyClause) (title : Option Str) (txt : Option TextVal) (orig : Option Bool),
        orig ≠ some true → findNewTemplatePass t = .ok () →
        find_new_lines t [.dict ⟨Option.none, title, some [⟨.num 0, txt, orig⟩]⟩]
          = .ok [⟨txt.getD (.str []), title.getD [], "after_clause".data⟩]) := by
  refine ⟨by decide, ?_, ?_⟩
  · intro t title txt orig
    unfold find_new_lines
    cases h : findNewTemplatePass t with
    | error e => rfl
    | ok u => rfl
  · intro t title txt orig hne h
    unfold find_new_lines
    rw [h]
    cases orig with
    | none => rfl
    | some b =>
      cases b with
      | false => rfl
      | true => exact absurd rfl hne

theorem line_zero_treated_as_unnumbered_witness :
    find_new_lines []
        [.dict ⟨Option.none, some "T".data,
          some [⟨LineVal.num 0, some (TextVal.str "z".data), Option.none⟩]⟩]
      = .ok [⟨.str "z".data, "T".data, "after_clause".data⟩] :=
  line_zero_treated_as_unnumbered.2.2 [] (some "T".data)
    (some (TextVal.str "z".data)) Option.none (by decide) rfl

/-- C10: when a text occurs on several flattened template lines,
`_analyze_diff` emits exactly one `deleted` record for it — placed in
the output at the position of the text's *first* occurrence but
carrying the line number and clause title of its *last* occurrence
(the text-keyed dict keeps first-insertion order while later
assignments overwrite the value); symmetrically for `added` over the
recap lines (whose `original` flag is likewise the last
occurrence's). -/
theorem analyze_diff_dedups_by_first_occurrence (tl rl : List FlatLine)
    (h1 : cleanTexts tl) (h2 : cleanTexts rl) :
    analyze_diff tl rl = .ok
      ⟨(firstOccurrences (texts tl)).filterMap (fun t =>
          if t ∈ texts rl then Option.none
          else (lastWith tl t).map (fun it =>
            (⟨it.text, it.line, it.clause_title⟩ : AmendRecord))),
        (firstOccurrences (texts rl)).filterMap (fun t =>
          if t ∈ texts tl then Option.none
          else (lastWith rl t).bind (fun it =>
            if it.original then Option.none
            else some (⟨.str t, it.line, it.clause_title⟩ : AmendRecord))),
        []⟩ := by
  unfold analyze_diff
  rw [buildTextDict_clean tl h1, buildTextDict_clean rl h2]
  show Except.ok
      (⟨(specDict tl).filterMap (fun p =>
          if (specDict rl).any (fun q => decide (q.1 = p.1)) then Option.none
          else some (⟨p.2.text, p.2.line, p.2.clause_title⟩ : AmendRecord)),
        (specDict rl).filterMap (fun p =>
          if (specDict tl).any (fun q => decide (q.1 = p.1)) then Option.none
          else if p.2.original then Option.none
          else some (⟨.str p.1, p.2.line, p.2.clause_title⟩ : AmendRecord)),
        []⟩ : DiffResult) = _
  congr 1
  have hanyT : ∀ t : Str,
      ((specDict tl).any (fun q => decide (q.1 = t)) = true) ↔ t ∈ texts tl := by
    intro t
    rw [any_fst_eq_mem_keys, keys_specDict h1, mem_firstOccurrences]
  have hanyR : ∀ t : Str,
      ((specDict rl).any (fun q => decide (q.1 = t)) = true) ↔ t ∈ texts rl := by
    intro t
    rw [any_fst_eq_mem_keys, keys_specDict h2, mem_firstOccurrences]
  congr 1
  · unfold specDict
    rw [List.filterMap_filterMap]
    apply filterMap_congr_mem
    intro t _
    by_cases hP : t ∈ texts rl
    · rw [if_pos hP]
      cases hlw : lastWith tl t with
      | none => rfl
      | some it =>
        show (if (specDict rl).any (fun q => decide (q.1 = t)) then Option.none
            else some (⟨it.text, it.line, it.clause_title⟩ : AmendRecord)) = _
        rw [if_pos ((hanyR t).mpr hP)]
    · rw [if_neg hP]
      cases hlw : lastWith tl t with
      | none => rfl
      | some it =>
        show (if (specDict rl).any (fun q => decide (q.1 = t)) then Option.none
            else some (⟨it.text, it.line, it.clause_title⟩ : AmendRecord)) = _
        rw [if_neg (fun hb => hP ((hanyR t).mp hb))]
        rfl
  · unfold specDict
    rw [List.filterMap_filterMap]
    apply filterMap_congr_mem
    intro t _
    by_cases hP : t ∈ texts tl
    · rw [if_pos hP]
      cases hlw : lastWith rl t with
      | none => rfl
      | some it =>
        show (if (specDict tl).any (fun q => decide (q.1 = t)) then Option.none
            else if it.original then Option.none
            else some (⟨.str t, it.line, it.clause_title⟩ : AmendRecord)) = _
        rw [if_pos ((hanyT t).mpr hP)]
    · rw [if_neg hP]
      cases hlw : lastWith rl t with
      | none => rfl
      | some it =>
        show (if (specDict tl).any (fun q => decide (q.1 = t)) then Option.none
            else if it.original then Option.none
            else some (⟨.str t, it.line, it.clause_title⟩ : AmendRecord)) = _
        rw [if_neg (fun hb => hP ((hanyT t).mp hb))]
        rfl

theorem analyze_diff_dedups_witness :
    analyze_diff
        [⟨LineVal.num 1, TextVal.str "x".data, true, "C1".data⟩,
         ⟨LineVal.num 2, TextVal.str "y".data, true, "C1".data⟩,
         ⟨LineVal.num 9, TextVal.str "x".data, true, "C2".data⟩]
        []
      = .ok ⟨[⟨TextVal.str "x".data, LineVal.num 9, "C2".data⟩,
              ⟨TextVal.str "y".data, LineVal.num 2, "C1".data⟩], [], []⟩ := by
  rw [analyze_diff_dedups_by_first_occurrence _ _ (by decide) (by decide)]
  decide

/-- C4 (amended): template-mode and filled-mode clause extraction
agree on every line sequence whose lines carry no leading or trailing
whitespace (`strip` is the identity on them); neither variant sets the
`original` flag.  In general they differ, because the template scanner
matches headers and numbered lines on the *stripped* line while the
filled scanner matches on the raw line. -/
theorem clause_extraction_modes_agree_on_stripped (lines : List Str)
    (h : ∀ l ∈ lines, pyStrip l = l) :
    scanClausesTemplate lines = scanClausesFilled lines :=
  scanAux_agree lines h Option.none

/-- C4 counterexample: a clause header with one leading space is
recognised by the template scanner (which strips first) but not by the
filled scanner (which matches the raw line), so the two modes return
different clause trees. -/
theorem clause_extraction_modes_differ :
    scanClausesTemplate [" Clause 1. Definitions".data, "1 foo".data]
      = [⟨some 1, some "Clause 1. Definitions".data,
          some [⟨.num 1, some (.str "foo".data), Option.none⟩]⟩]
    ∧ scanClausesFilled [" Clause 1. Definitions".data, "1 foo".data] = []
    ∧ scanClausesTemplate [" Clause 1. Definitions".data, "1 foo".data]
      ≠ scanClausesFilled [" Clause 1. Definitions".data, "1 foo".data] := by
  refine ⟨by decide, by decide, by decide⟩

theorem clause_extraction_modes_agree_witness :
    scanClausesTemplate ["Clause 1. Defs".data, "1 alpha".data, "beta".data]
      = scanClausesFilled ["Clause 1. Defs".data, "1 alpha".data, "beta".data] :=
  clause_extraction_modes_agree_on_stripped
    ["Clause 1. Defs".data, "1 alpha".data, "beta".data] (by decide)

/-- C2 (amended): both clause-extraction modes scan the text *between
the first and the second* occurrence of `"Part II"` — content after a
later occurrence is dropped, because `full_text.split("Part II")[1]`
is only the segment up to the next occurrence; with a single
occurrence the scanned region is everything after it, and with no
occurrence the whole text is scanned (and the operation is a total
function, never raising). -/
theorem part_ii_region_between_markers (pre mid post : Str)
    (h1 : containsSeq partIIMarker pre = false)
    (h2 : containsSeq partIIMarker mid = false) :
    extract_part_ii_template (pre ++ (partIIMarker ++ (mid ++ (partIIMarker ++ post))))
      = scanClausesTemplate (splitLinesNL mid)
    ∧ extract_part_ii_filled (pre ++ (partIIMarker ++ (mid ++ (partIIMarker ++ post))))
      = scanClausesFilled (splitLinesNL mid)
    ∧ extract_part_ii_template (pre ++ (partIIMarker ++ mid))
      = scanClausesTemplate (splitLinesNL mid)
    ∧ extract_part_ii_filled (pre ++ (partIIMarker ++ mid))
      = scanClausesFilled (splitLinesNL mid)
    ∧ (∀ t : Str, containsSeq partIIMarker t = false →
        extract_part_ii_template t = scanClausesTemplate (splitLinesNL t)
        ∧ extract_part_ii_filled t = scanClausesFilled (splitLinesNL t)) := by
  refine ⟨?_, ?_, ?_, ?_, ?_⟩
  · unfold extract_part_ii_template
    rw [partIIText_two_markers h1 h2]
  · unfold extract_part_ii_filled
    rw [partIIText_two_markers h1 h2]
  · unfold extract_part_ii_template
    rw [partIIText_one_marker h1 h2]
  · unfold extract_part_ii_filled
    rw [partIIText_one_marker h1 h2]
  · intro t ht
    constructor
    · unfold extract_part_ii_template
      rw [partIIText_no_occ ht]
    · unfold extract_part_ii_filled
      rw [partIIText_no_occ ht]

/-- C2 counterexample: on a document with two `"Part II"` markers, the
code scans only the segment between them, so the clause after the
second marker is lost; scanning everything after the *first*
occurrence (as the claim states) would have kept it.  The claim's
predicted region is `"\nClause 1. A\nPart II\nClause 2. B"`. -/
theorem part_ii_scans_only_to_second_marker :
    extract_part_ii_filled "Part II\nClause 1. A\nPart II\nClause 2. B".data
      = [⟨some 1, some "Clause 1. A".data, some []⟩]
    ∧ scanClausesFilled (splitLinesNL "\nClause 1. A\nPart II\nClause 2. B".data)
      = [⟨some 1, some "Clause 1. A".data,
          some [⟨.none, some (.str "Part II".data), Option.none⟩]⟩,
         ⟨some 2, some "Clause 2. B".data, some []⟩]
    ∧ extract_part_ii_filled "Part II\nClause 1. A\nPart II\nClause 2. B".data
      ≠ scanClausesFilled (splitLinesNL "\nClause 1. A\nPart II\nClause 2. B".data) := by
  refine ⟨by decide, by decide, by decide⟩

theorem part_ii_region_between_markers_witness :
    extract_part_ii_filled
        ("X".data ++ (partIIMarker ++ ("\nClause 1. A".data ++ (partIIMarker ++ "\nzzz".data))))
      = scanClausesFilled (splitLinesNL "\nClause 1. A".data) :=
  (part_ii_region_between_markers "X".data "\nClause 1. A".data "\nzzz".data
    (by decide) (by decide)).2.1

/-- C1 (amended): an exception while flattening the clause trees or
while building the text-diff yields the untouched empty skeleton, but
an exception inside the new-line pass yields the already-rebound diff
result — `deleted`/`added` possibly populated and the `"new"` key
absent — so the original claim's "always the empty skeleton with all
four keys" fails on the new-line-pass path. -/
theorem detect_amendments_exception_paths (t r : List PyClause) :
    (classifyStage t r = .error () → detect_amendments t r = emptySkeleton)
    ∧ (∀ d : DiffResult, classifyStage t r = .ok d →
        find_new_lines t r = .error () →
        detect_amendments t r = ⟨d.deleted, d.added, Option.none, d.modified⟩) := by
  constructor
  · intro h
    unfold detect_amendments
    rw [h]
  · intro d h1 h2
    unfold detect_amendments
    rw [h1, h2]

/-- C1 counterexample: a template content item whose `"line"` value is
a non-empty list (truthy but unhashable) survives flattening and the
diff, then raises inside `_find_new_lines`' set insertion; the
returned dict has a non-empty `deleted` list and no `"new"` key — not
the empty skeleton the claim promises. -/
theorem detect_amendments_partial_result_on_new_pass_exception :
    find_new_lines
        [PyClause.dict ⟨Option.none, some "T".data,
          some [⟨LineVal.badList, some (TextVal.str "x".data), Option.none⟩]⟩] []
      = .error ()
    ∧ detect_amendments
        [PyClause.dict ⟨Option.none, some "T".data,
          some [⟨LineVal.badList, some (TextVal.str "x".data), Option.none⟩]⟩] []
      = ⟨[⟨.str "x".data, .badList, "T".data⟩], [], Option.none, []⟩
    ∧ detect_amendments
        [PyClause.dict ⟨Option.none, some "T".data,
          some [⟨LineVal.badList, some (TextVal.str "x".data), Option.none⟩]⟩] []
      ≠ emptySkeleton := by
  refine ⟨by decide, by decide, by decide⟩

theorem detect_amendments_exception_paths_witness :
    detect_amendments [PyClause.invalid] [] = emptySkeleton
    ∧ detect_amendments
        [PyClause.dict ⟨Option.none, some "W".data,
          some [⟨LineVal.badList, some (TextVal.str "y".data), Option.none⟩]⟩] []
      = ⟨[⟨.str "y".data, .badList, "W".data⟩], [], Option.none, []⟩ := by
  constructor
  · exact (detect_amendments_exception_paths [PyClause.invalid] []).1 (by decide)
  · exact (detect_amendments_exception_paths
      [PyClause.dict ⟨Option.none, some "W".data,
        some [⟨LineVal.badList, some (TextVal.str "y".data), Option.none⟩]⟩] []).2
      ⟨[⟨.str "y".data, .badList, "W".data⟩], [], []⟩ (by decide) (by decide)

/-- C8: every `AmendmentSet` returned by `detect_amendments` — via the
success path, the all-failed recovery path, or the partial recovery
path — has an empty `modified` sequence. -/
theorem detect_amendments_modified_empty (t r : List PyClause) :
    (detect_amendments t r).modified = [] := by
  unfold detect_amendments
  cases hc : classifyStage t r with
  | error e => rfl
  | ok d =>
    have hm := classifyStage_ok_modified hc
    cases hf : find_new_lines t r with
    | error e => simpa using hm
    | ok nw => simpa using hm
